import Mathlib

/-!
Verification of the snarkOS Merkle-tree core (native tree, membership proofs,
circuit gadgets, masked-root extension) and of the CLI node-type selection.

The repository sources in scope are the merkle-tree gadget test module
(src/gadgets/src/algorithms/merkle_tree/tests.rs) and the CLI
(src/snarkos/cli.rs).  The tree, proof and gadget implementations themselves
live in sibling crates of this repository that are not present here, so they
are modelled from the specification (marked below); the CLI is embedded
directly from its source.
-/

namespace Spec2Proof

/-- Modelled from the spec: the abstract hash engine (§4.1) together with the
Merkle parameters (§3, §4.2).  The concrete PedersenCompressedCRH and the
MerkleParameters implementation are not under src/ (only their callers in the
merkle_tree tests are).  `hashLeaf` models leaf hashing of raw leaf bytes;
`hashTwo left right` models `evaluate(parameters, bytes(left) ++ bytes(right))`,
the compression of two concatenated child outputs; `hashEmpty` is the hash of
the fixed canonical empty value used for padding; `height` is the fixed tree
height `H`, with leaf capacity `2^H`. -/
structure MerkleParameters (α : Type) where
  hashLeaf : List Nat → α
  hashTwo : α → α → α
  hashEmpty : α
  height : Nat

variable {α : Type}

/-- Modelled from the spec: one level-synchronous construction step (§4.2) —
hash each adjacent pair `(left, right)` in index order (left = even index,
right = odd index) to produce the next level. -/
def hashLevel (p : MerkleParameters α) : List α → List α
  | l :: r :: rest => p.hashTwo l r :: hashLevel p rest
  | _ => []

/-- Iterate `hashLevel` a given number of times (levels from the leaves up). -/
def levelsUp (p : MerkleParameters α) : Nat → List α → List α
  | 0, xs => xs
  | n + 1, xs => levelsUp p n (hashLevel p xs)

/-- All node levels from the given bottom level up: `n + 1` levels in total,
the last being the level that holds the root. -/
def levelsFrom (p : MerkleParameters α) : Nat → List α → List (List α)
  | 0, xs => [xs]
  | n + 1, xs => xs :: levelsFrom p n (hashLevel p xs)

/-- Modelled from the spec: hash each real leaf and pad the remaining leaf
slots up to `2^H` with the hash of the fixed canonical empty value (§4.2). -/
def padLeaves (p : MerkleParameters α) (leaves : List (List Nat)) : List α :=
  leaves.map p.hashLeaf ++ List.replicate (2 ^ p.height - leaves.length) p.hashEmpty

/-- The raw (unmasked) root of the tree built over the given leaves: fold the
padded leaf-hash level upward `H` times and read the single remaining node. -/
def rawRoot (p : MerkleParameters α) (leaves : List (List Nat)) : α :=
  (levelsUp p p.height (padLeaves p leaves)).headD p.hashEmpty

/-- Modelled from the spec: explicit construction-error results (§7). -/
inductive MerkleError
  | invalidLeafCount
  | incorrectLeafIndex
  | malformedProof
deriving DecidableEq, Repr

/-- Modelled from the spec: the MerkleTree (§3, §4.2) — owns the leaf-hash
level and the internal-node levels (index-addressed, level by level), the
number of real leaves supplied, and the root, read by a pure accessor. -/
structure MerkleTree (α : Type) where
  params : MerkleParameters α
  numLeaves : Nat
  levels : List (List α)
  rootHash : α

/-- Pure accessor for the root (§4.2: no recomputation). -/
def MerkleTree.root (t : MerkleTree α) : α := t.rootHash

/-- Modelled from the spec: `new(parameters, leaves)` (§4.2) — fails exactly
when `len(leaves) > 2^H`; otherwise hashes and pads the leaves and builds all
levels bottom-up. -/
def MerkleTree.new (p : MerkleParameters α) (leaves : List (List Nat)) :
    Except MerkleError (MerkleTree α) :=
  if leaves.length > 2 ^ p.height then .error .invalidLeafCount
  else
    let lvl0 := padLeaves p leaves
    .ok { params := p
          numLeaves := leaves.length
          levels := levelsFrom p p.height lvl0
          rootHash := (levelsUp p p.height lvl0).headD p.hashEmpty }

/-- Modelled from the spec: a membership proof (§3, §4.2) — the ordered
sibling hashes from the leaf level up to (but not including) the root, plus
the leaf index; direction bits are the index parities bottom-up.  The proof
carries the parameters so it is self-contained. -/
structure MerklePath (α : Type) where
  params : MerkleParameters α
  siblings : List α
  index : Nat

/-- Modelled from the spec: collect the sibling at every non-root level —
the node at the complementary position (`index XOR 1` within its pair), with
the index halved at each level up (§4.2). -/
def pathSiblings (p : MerkleParameters α) : List (List α) → Nat → List α
  | lvl :: next :: rest, i =>
      lvl.getD (i ^^^ 1) p.hashEmpty :: pathSiblings p (next :: rest) (i / 2)
  | _, _ => []

/-- Modelled from the spec: `generate_proof(index, leaf)` (§4.2) — fails if
the index is out of bounds or the claimed leaf's hash does not match the
stored leaf hash at that index; otherwise records the sibling at every level. -/
def MerkleTree.generate_proof [DecidableEq α] (t : MerkleTree α) (index : Nat)
    (leaf : List Nat) : Except MerkleError (MerklePath α) :=
  if index ≥ t.numLeaves then .error .incorrectLeafIndex
  else if t.params.hashLeaf leaf ≠ (t.levels.headD []).getD index t.params.hashEmpty then
    .error .incorrectLeafIndex
  else .ok { params := t.params, siblings := pathSiblings t.params t.levels index, index := index }

/-- Modelled from the spec: fold a candidate root upward through the recorded
siblings (§4.2) — at each level the direction bit is the index parity; parity
0 means the current node is the left child (sibling goes on the right). -/
def foldPath (p : MerkleParameters α) : α → List α → Nat → α
  | cur, [], _ => cur
  | cur, s :: rest, i =>
      foldPath p (if i % 2 = 0 then p.hashTwo cur s else p.hashTwo s cur) rest (i / 2)

/-- Modelled from the spec: `Proof.verify(root, leaf)` (§4.2) — a structurally
malformed proof (wrong sibling count) is an error; otherwise the recomputed
candidate root is compared with the supplied root and the comparison is
returned as an ordinary boolean. -/
def MerklePath.verify [DecidableEq α] (path : MerklePath α) (root : α)
    (leaf : List Nat) : Except MerkleError Bool :=
  if path.siblings.length ≠ path.params.height then .error .malformedProof
  else .ok (decide (foldPath path.params (path.params.hashLeaf leaf) path.siblings path.index = root))

/-- Modelled from the spec: the external constraint-system collaborator (§6)
as exercised by TestConstraintSystem in the tests — a single-owner accumulator
of constraints.  Every variable in the tests is allocated with its concrete
witness value, so a constraint is recorded here as the pair of witnessed
values it equates, and satisfiability means every recorded pair is equal. -/
structure ConstraintSystem (α : Type) where
  constraints : List (α × α)

/-- The empty constraint system (TestConstraintSystem::new). -/
def ConstraintSystem.empty : ConstraintSystem α := { constraints := [] }

/-- Satisfiability check (TestConstraintSystem::is_satisfied): every recorded
equality constraint holds on the witnessed values. -/
def ConstraintSystem.is_satisfied [DecidableEq α] (cs : ConstraintSystem α) : Bool :=
  cs.constraints.all fun c => c.1 == c.2

/-- Modelled from the spec: the direction bits of a path — the sequence of
index parities encountered bottom-up (§4.2, §4.4 step 1). -/
def directionBits : Nat → Nat → List Bool
  | _, 0 => []
  | i, n + 1 => Nat.testBit i 0 :: directionBits (i / 2) n

/-- Modelled from the spec: the level-by-level body of the membership gadget
(§4.4 steps 2–3) — at each level both orderings of `(current, sibling)` are
available and the direction bit selects one (circuit-level conditional swap),
the ordered pair is fed to the hash gadget, and the hash gadget appends a
constraint binding its output variable to the natively witnessed hash value
(§4.3: the arithmetization agrees with native evaluation, and in the tests
every witness is computed honestly, so each such constraint equates the value
with itself). -/
def gadgetFold [DecidableEq α] (p : MerkleParameters α) :
    ConstraintSystem α → α → List α → List Bool → ConstraintSystem α × α
  | cs, cur, [], _ => (cs, cur)
  | cs, cur, s :: rest, bits =>
      let b := bits.headD false
      let left := if b then s else cur
      let right := if b then cur else s
      let out := p.hashTwo left right
      gadgetFold p { constraints := cs.constraints ++ [(out, p.hashTwo left right)] }
        out rest bits.tail

/-- Modelled from the spec: `check_membership` (§4.4) — allocates the path
witnesses, hashes the leaf bytes in-circuit, folds upward through the levels
with the conditional swap, and finally asserts equality between the resulting
variable and the allocated root variable.  A malformed path (wrong sibling
count for the height) is a circuit-construction-time error; otherwise the
call succeeds and only mutates the constraint system. -/
def check_membership [DecidableEq α] (p : MerkleParameters α)
    (cs : ConstraintSystem α) (rootVar : α) (leafBytes : List Nat)
    (path : MerklePath α) : Except MerkleError (ConstraintSystem α) :=
  if path.siblings.length ≠ p.height then .error .malformedProof
  else
    let leafHash := p.hashLeaf leafBytes
    let cs0 : ConstraintSystem α := { constraints := cs.constraints ++ [(leafHash, leafHash)] }
    let bits := directionBits path.index p.height
    let folded := gadgetFold p cs0 leafHash path.siblings bits
    .ok { constraints := folded.1.constraints ++ [(folded.2, rootVar)] }

/-- Modelled from the spec: the level fold of the masked-root gadget — the
same bottom-up pairwise-hash fold as construction (§4.5), performed in-circuit
with honestly witnessed hash outputs, so each produced node contributes a
constraint equating its variable with its native value. -/
def levelFoldGadget [DecidableEq α] (p : MerkleParameters α) :
    ConstraintSystem α → List α → Nat → ConstraintSystem α × α
  | cs, xs, 0 => (cs, xs.headD p.hashEmpty)
  | cs, xs, n + 1 =>
      let ys := hashLevel p xs
      levelFoldGadget p { constraints := cs.constraints ++ ys.map fun h => (h, h) } ys n

/-- Modelled from the spec and the repository's tests: the masked-root gadget
`compute_root(cs, parameters, mask, leaves)` (§4.5).  The mask bytes are
allocated as witness variables (their allocation constraints hold for any
honestly witnessed byte string), every leaf is hashed in-circuit, and the
padded leaf-hash level is folded bottom-up exactly as in construction.  The
mask blinds the in-circuit evaluation only: the witnessed value of the
returned root variable is the raw tree root of the leaves, which is what the
repository's good_masked_root_test asserts (`assert_eq!(root,
computed_root.get_value().unwrap())` with `root = tree.root()`).  No
constraint ties the returned variable to any externally claimed root. -/
def compute_root [DecidableEq α] (p : MerkleParameters α)
    (cs : ConstraintSystem α) (mask : List Nat) (leaves : List (List Nat)) :
    ConstraintSystem α × α :=
  let maskAlloc : ConstraintSystem α := { constraints := cs.constraints }
  let lvl0 := padLeaves p leaves
  let csLeaves : ConstraintSystem α :=
    { constraints := maskAlloc.constraints ++ lvl0.map fun h => (h, h) }
  levelFoldGadget p csLeaves lvl0 p.height

/-- Modelled from the spec: parameter setup (§4.1, §6) — `setup(rng)` samples
fresh public parameters (the window generators of the hash engine) from an
arbitrary byte-producing randomness source, here abstracted as a state type
with a step function; a seeded deterministic RNG is a concrete such source. -/
def sampleMany {σ : Type} (step : σ → Nat × σ) : Nat → σ → List Nat × σ
  | 0, rng => ([], rng)
  | n + 1, rng =>
      let (v, rng') := step rng
      let (vs, rng'') := sampleMany step n rng'
      (v :: vs, rng'')

/-- Modelled from the spec: `setup(rng) -> Parameters` (§4.1) — generates the
hash parameters (a fixed number of sampled generators) from the randomness
source.  The sampled generators determine the hash engine deterministically. -/
def setup {σ : Type} (step : σ → Nat × σ) (numSamples : Nat) (rng : σ) : List Nat :=
  (sampleMany step numSamples rng).1

/-- The node types (snarkos_environment::helpers::NodeType) as matched in
src/snarkos/cli.rs. -/
inductive NodeType
  | Client
  | Prover
  | Validator
  | Beacon
deriving DecidableEq, Repr

/-- The CLI fields consulted by CLI::node_type (src/snarkos/cli.rs lines
30–77): the network id and the three role selectors. -/
structure CLI where
  network : Nat
  prover : Option String
  validator : Option String
  beacon : Bool

/-- CLI::node_type (src/snarkos/cli.rs lines 101–109).  The wildcard arm
panics with "Unsupported node configuration"; the panic is modelled as
`none`, a returned node type as `some`. -/
def CLI.node_type (c : CLI) : Option NodeType :=
  match c.network, c.prover, c.validator, c.beacon with
  | 3, none, none, false => some .Client
  | 3, some _, none, false => some .Prover
  | 3, none, some _, false => some .Validator
  | 3, none, none, true => some .Beacon
  | _, _, _, _ => none

/-- A small concrete instantiation of the abstract hash engine and tree
height, used to evaluate the model at concrete inputs. -/
def toyParams : MerkleParameters Nat :=
  { hashLeaf := fun bs => bs.foldl (fun a b => (a * 7 + b + 1) % 1000) 3
    hashTwo := fun a b => (a * 31 + b * 17 + 5) % 1000
    hashEmpty := 9
    height := 2 }

/-- Three one-byte leaves for the toy tree. -/
def toyLeaves : List (List Nat) := [[0], [1], [2]]

/-- The toy hash engine with tree height 3, for the concrete masked scenario. -/
def toyParams3 : MerkleParameters Nat := { toyParams with height := 3 }

/-- The four 32-byte test leaves `[0x00…00, 0x01…01, 0x02…02, 0x03…03]` used
by the repository's tests. -/
def fourTestLeaves : List (List Nat) :=
  [List.replicate 32 0, List.replicate 32 1, List.replicate 32 2, List.replicate 32 3]

/-- Toy byte serialization of a hash output, for deriving the PRF mask in
concrete instances. -/
def toyToBytes (n : Nat) : List Nat := [n % 256, n / 256 % 256]

/-- Toy pseudorandom function standing in for the Blake2s PRF in concrete
instances: a keyed byte-wise scrambling of nonce and input. -/
def toyPrf (nonce input : List Nat) : List Nat :=
  (nonce ++ input).map fun b => (b * 3 + 1) % 256

/-- A fixed toy nonce (32 bytes). -/
def toyNonce : List Nat := List.replicate 32 1

/-- A toy deterministic RNG step (a small linear congruential generator). -/
def toyStep (s : Nat) : Nat × Nat := (s % 97, (s * 75 + 74) % 65537)

/-- A toy seeding function for the deterministic RNG. -/
def toySeed (n : Nat) : Nat := (n + 1) % 65537

/-- A toy constructor of hash parameters from sampled generators, standing in
for the Pedersen window-generator table. -/
def mkToyParams (gens : List Nat) : MerkleParameters Nat :=
  { hashLeaf := fun bs => (bs.foldl (fun a b => (a * 7 + b + 1) % 1000) (gens.headD 3))
    hashTwo := fun a b => (a * 31 + b * 17 + gens.sum) % 1000
    hashEmpty := gens.length
    height := 2 }

/-! ## Helper lemmas -/

theorem xor_one_mod_two (i : Nat) : (i ^^^ 1) % 2 = 1 - i % 2 := by
  have hm := @Nat.xor_mod_two_eq_one i 1
  rcases Nat.mod_two_eq_zero_or_one (i ^^^ 1) with h' | h' <;>
    rcases Nat.mod_two_eq_zero_or_one i with h | h <;>
      simp [h, h'] at hm ⊢ <;> omega

theorem xor_one_div_two (i : Nat) : (i ^^^ 1) / 2 = i / 2 := by
  rw [Nat.xor_div_two]
  simp

theorem xor_one_even {i : Nat} (h : i % 2 = 0) : i ^^^ 1 = i + 1 := by
  have h1 := xor_one_mod_two i
  have h2 := xor_one_div_two i
  omega

theorem xor_one_odd {i : Nat} (h : i % 2 = 1) : i ^^^ 1 = i - 1 := by
  have h1 := xor_one_mod_two i
  have h2 := xor_one_div_two i
  omega

theorem hashLevel_length (p : MerkleParameters α) :
    ∀ xs : List α, (hashLevel p xs).length = xs.length / 2
  | [] => by simp [hashLevel]
  | [_] => by simp [hashLevel]
  | l :: r :: rest => by
      have ih := hashLevel_length p rest
      simp only [hashLevel, List.length_cons]
      omega

theorem hashLevel_getD (p : MerkleParameters α) (d : α) (j : Nat) :
    ∀ xs : List α, 2 * j + 1 < xs.length →
      (hashLevel p xs).getD j d = p.hashTwo (xs.getD (2 * j) d) (xs.getD (2 * j + 1) d) := by
  induction j with
  | zero =>
      intro xs h
      match xs with
      | [] => simp at h
      | [l] => simp at h
      | l :: r :: rest => simp [hashLevel]
  | succ j ih =>
      intro xs h
      match xs with
      | [] => simp at h
      | [l] => simp at h
      | l :: r :: rest =>
          have hlt : 2 * j + 1 < rest.length := by
            simp only [List.length_cons] at h
            omega
          have e1 : 2 * (j + 1) = 2 * j + 1 + 1 := by omega
          rw [e1]
          simp only [hashLevel, List.getD_cons_succ]
          exact ih rest hlt

theorem pathSiblings_levelsFrom (p : MerkleParameters α) (n : Nat) (xs : List α) (i : Nat) :
    pathSiblings p (levelsFrom p (n + 1) xs) i =
      xs.getD (i ^^^ 1) p.hashEmpty ::
        pathSiblings p (levelsFrom p n (hashLevel p xs)) (i / 2) := by
  cases n <;> rfl

theorem pathSiblings_length (p : MerkleParameters α) :
    ∀ (n : Nat) (xs : List α) (i : Nat),
      (pathSiblings p (levelsFrom p n xs) i).length = n := by
  intro n
  induction n with
  | zero => intro xs i; rfl
  | succ m ih =>
      intro xs i
      rw [pathSiblings_levelsFrom]
      simp [ih]

theorem foldPath_pathSiblings (p : MerkleParameters α) :
    ∀ (n : Nat) (xs : List α) (i : Nat), xs.length = 2 ^ n → i < 2 ^ n →
      foldPath p (xs.getD i p.hashEmpty) (pathSiblings p (levelsFrom p n xs) i) i =
        (levelsUp p n xs).headD p.hashEmpty := by
  intro n
  induction n with
  | zero =>
      intro xs i hlen hi
      have hi0 : i = 0 := by omega
      subst hi0
      match xs with
      | [] => simp at hlen
      | a :: t => simp [levelsFrom, pathSiblings, foldPath, levelsUp, List.getD]
  | succ m ih =>
      intro xs i hlen hi
      have hpow : 2 ^ (m + 1) = 2 * 2 ^ m := by
        rw [Nat.pow_succ]
        omega
      rw [pathSiblings_levelsFrom]
      simp only [foldPath]
      have hsel :
          (if i % 2 = 0 then p.hashTwo (xs.getD i p.hashEmpty) (xs.getD (i ^^^ 1) p.hashEmpty)
           else p.hashTwo (xs.getD (i ^^^ 1) p.hashEmpty) (xs.getD i p.hashEmpty)) =
            (hashLevel p xs).getD (i / 2) p.hashEmpty := by
        rcases Nat.mod_two_eq_zero_or_one i with hp | hp
        · rw [if_pos hp, xor_one_even hp]
          have hbound : 2 * (i / 2) + 1 < xs.length := by omega
          rw [hashLevel_getD p p.hashEmpty (i / 2) xs hbound]
          have e1 : 2 * (i / 2) = i := by omega
          rw [e1]
        · rw [if_neg (by omega), xor_one_odd hp]
          have hbound : 2 * (i / 2) + 1 < xs.length := by omega
          rw [hashLevel_getD p p.hashEmpty (i / 2) xs hbound]
          have e1 : 2 * (i / 2) = i - 1 := by omega
          have e2 : 2 * (i / 2) + 1 = i := by omega
          rw [e2, e1]
      rw [hsel]
      have hlen' : (hashLevel p xs).length = 2 ^ m := by
        rw [hashLevel_length p xs]
        omega
      have hi' : i / 2 < 2 ^ m := by omega
      have := ih (hashLevel p xs) (i / 2) hlen' hi'
      simpa [levelsUp] using this

theorem getD_append_lt {β : Type} (d : β) :
    ∀ (l l' : List β) (i : Nat), i < l.length → (l ++ l').getD i d = l.getD i d := by
  intro l
  induction l with
  | nil => intro l' i hi; simp at hi
  | cons a t ih =>
      intro l' i hi
      cases i with
      | zero => rfl
      | succ j =>
          simp only [List.cons_append, List.getD_cons_succ]
          exact ih l' j (by simpa using hi)

theorem getD_map_lt {β γ : Type} (f : β → γ) (d : γ) (d' : β) :
    ∀ (l : List β) (i : Nat), i < l.length → (l.map f).getD i d = f (l.getD i d') := by
  intro l
  induction l with
  | nil => intro i hi; simp at hi
  | cons a t ih =>
      intro i hi
      cases i with
      | zero => rfl
      | succ j =>
          simp only [List.map_cons, List.getD_cons_succ]
          exact ih j (by simpa using hi)

theorem padLeaves_length (p : MerkleParameters α) (leaves : List (List Nat))
    (h : leaves.length ≤ 2 ^ p.height) : (padLeaves p leaves).length = 2 ^ p.height := by
  simp [padLeaves]
  omega

theorem padLeaves_getD (p : MerkleParameters α) (leaves : List (List Nat)) (i : Nat)
    (hi : i < leaves.length) :
    (padLeaves p leaves).getD i p.hashEmpty = p.hashLeaf (leaves.getD i []) := by
  unfold padLeaves
  rw [getD_append_lt p.hashEmpty (leaves.map p.hashLeaf) _ i (by simpa using hi)]
  exact getD_map_lt p.hashLeaf p.hashEmpty [] leaves i hi

theorem levelsFrom_headD (p : MerkleParameters α) (n : Nat) (xs : List α) :
    (levelsFrom p n xs).headD [] = xs := by
  cases n <;> rfl

/-- C2: Round-trip membership — for every height, every leaf set of size at
most `2^H`, and every valid index `i`, the tree is built successfully, the
proof returned by `generate_proof(i, leaves[i])` is produced successfully, and
it verifies as `true` against the tree's own root and the same leaf. -/
theorem round_trip_membership [DecidableEq α] (p : MerkleParameters α)
    (leaves : List (List Nat)) (i : Nat)
    (hcap : leaves.length ≤ 2 ^ p.height) (hi : i < leaves.length) :
    ∃ (t : MerkleTree α) (proof : MerklePath α),
      MerkleTree.new p leaves = .ok t ∧
      t.generate_proof i (leaves.getD i []) = .ok proof ∧
      proof.verify t.root (leaves.getD i []) = .ok true := by
  have hlvl0 : (padLeaves p leaves).length = 2 ^ p.height := padLeaves_length p leaves hcap
  have hstored :
      ((levelsFrom p p.height (padLeaves p leaves)).headD []).getD i p.hashEmpty =
        p.hashLeaf (leaves.getD i []) := by
    rw [levelsFrom_headD]
    exact padLeaves_getD p leaves i hi
  refine ⟨⟨p, leaves.length, levelsFrom p p.height (padLeaves p leaves),
           (levelsUp p p.height (padLeaves p leaves)).headD p.hashEmpty⟩,
          ⟨p, pathSiblings p (levelsFrom p p.height (padLeaves p leaves)) i, i⟩,
          ?_, ?_, ?_⟩
  · simp only [MerkleTree.new]
    rw [if_neg (by omega)]
  · simp only [MerkleTree.generate_proof]
    rw [if_neg (by omega : ¬ i ≥ leaves.length), if_neg (by rw [hstored]; simp)]
  · simp only [MerklePath.verify, MerkleTree.root]
    rw [if_neg (by rw [pathSiblings_length]; simp)]
    rw [← padLeaves_getD p leaves i hi]
    rw [foldPath_pathSiblings p p.height (padLeaves p leaves) i hlvl0
          (Nat.lt_of_lt_of_le hi hcap)]
    simp

theorem gadgetFold_value [DecidableEq α] (p : MerkleParameters α) :
    ∀ (sibs : List α) (cs : ConstraintSystem α) (cur : α) (i : Nat),
      (gadgetFold p cs cur sibs (directionBits i sibs.length)).2 = foldPath p cur sibs i := by
  intro sibs
  induction sibs with
  | nil => intro cs cur i; rfl
  | cons s rest ih =>
      intro cs cur i
      simp only [List.length_cons, directionBits, gadgetFold, foldPath,
        List.headD_cons, List.tail_cons, Nat.testBit_zero]
      rcases Nat.mod_two_eq_zero_or_one i with hp | hp <;> simp [hp, ih]

theorem gadgetFold_satisfied [DecidableEq α] (p : MerkleParameters α) :
    ∀ (sibs : List α) (cs : ConstraintSystem α) (cur : α) (bits : List Bool),
      (gadgetFold p cs cur sibs bits).1.is_satisfied = cs.is_satisfied := by
  intro sibs
  induction sibs with
  | nil => intro cs cur bits; rfl
  | cons s rest ih =>
      intro cs cur bits
      simp only [gadgetFold]
      rw [ih]
      simp [ConstraintSystem.is_satisfied]

theorem is_satisfied_append_pair [DecidableEq α] (c : List (α × α)) (a b : α) :
    (ConstraintSystem.mk (c ++ [(a, b)])).is_satisfied =
      ((ConstraintSystem.mk c).is_satisfied && (a == b)) := by
  simp [ConstraintSystem.is_satisfied]

/-- Characterization of `check_membership` on a well-formed path: the call
returns successfully, and the resulting constraint system is satisfiable
exactly when the incoming one was and the natively folded candidate root
equals the allocated root variable. -/
theorem check_membership_ok [DecidableEq α] (p : MerkleParameters α)
    (cs : ConstraintSystem α) (rootVar : α) (leafBytes : List Nat) (path : MerklePath α)
    (hlen : path.siblings.length = p.height) :
    ∃ cs', check_membership p cs rootVar leafBytes path = .ok cs' ∧
      (cs'.is_satisfied = true ↔
        (cs.is_satisfied = true ∧
          foldPath p (p.hashLeaf leafBytes) path.siblings path.index = rootVar)) := by
  have hne : ¬ path.siblings.length ≠ p.height := by simp [hlen]
  simp only [check_membership]
  rw [if_neg hne]
  refine ⟨_, rfl, ?_⟩
  rw [is_satisfied_append_pair]
  have hfold :
      (gadgetFold p ⟨cs.constraints ++ [(p.hashLeaf leafBytes, p.hashLeaf leafBytes)]⟩
          (p.hashLeaf leafBytes) path.siblings (directionBits path.index p.height)).2 =
        foldPath p (p.hashLeaf leafBytes) path.siblings path.index := by
    rw [← hlen]
    exact gadgetFold_value p path.siblings _ _ path.index
  have hsat :
      (ConstraintSystem.mk
          (gadgetFold p ⟨cs.constraints ++ [(p.hashLeaf leafBytes, p.hashLeaf leafBytes)]⟩
            (p.hashLeaf leafBytes) path.siblings (directionBits path.index p.height)).1.constraints).is_satisfied =
        cs.is_satisfied := by
    rw [gadgetFold_satisfied, is_satisfied_append_pair]
    simp
  rw [hfold, hsat]
  simp

/-- C1: native/circuit equivalence — for every parameters, root, leaf, and
structurally well-formed proof, native `verify` returns `true` exactly when
`check_membership` (which always returns successfully) produces a satisfiable
constraint system; in particular any root allocated in place of the true
recomputed root (such as the default root, when it differs) makes the
constraint system unsatisfiable. -/
theorem native_circuit_equivalence [DecidableEq α] (root : α) (leaf : List Nat)
    (path : MerklePath α) (hlen : path.siblings.length = path.params.height) :
    ∃ cs', check_membership path.params ConstraintSystem.empty root leaf path = .ok cs' ∧
      (path.verify root leaf = .ok true ↔ cs'.is_satisfied = true) ∧
      (root ≠ foldPath path.params (path.params.hashLeaf leaf) path.siblings path.index →
        cs'.is_satisfied = false) := by
  obtain ⟨cs', h1, h2⟩ :=
    check_membership_ok path.params ConstraintSystem.empty root leaf path hlen
  have hv_eq : path.verify root leaf =
      .ok (decide (foldPath path.params (path.params.hashLeaf leaf)
            path.siblings path.index = root)) := by
    simp only [MerklePath.verify]
    rw [if_neg (by simp [hlen])]
  have hempty : (ConstraintSystem.empty : ConstraintSystem α).is_satisfied = true := rfl
  refine ⟨cs', h1, ?_, ?_⟩
  · rw [hv_eq, h2]
    simp [hempty]
  · intro hbad
    rcases Bool.eq_false_or_eq_true cs'.is_satisfied with h | h
    · rw [h2] at h
      exact absurd h.2.symm hbad
    · exact h

/-- Witness for C1 at a concrete instance: the toy tree's proof for index 1,
whose recomputed candidate root is 757. -/
theorem native_circuit_equivalence_witness :
    ([22, 902] : List Nat).length = toyParams.height ∧
      ∃ cs', check_membership toyParams ConstraintSystem.empty 757 [1]
          ⟨toyParams, [22, 902], 1⟩ = .ok cs' ∧
        ((⟨toyParams, [22, 902], 1⟩ : MerklePath Nat).verify 757 [1] = .ok true ↔
          cs'.is_satisfied = true) ∧
        (757 ≠ foldPath toyParams (toyParams.hashLeaf [1]) [22, 902] 1 →
          cs'.is_satisfied = false) :=
  ⟨by decide, native_circuit_equivalence 757 [1] ⟨toyParams, [22, 902], 1⟩ (by decide)⟩

/-- Witness for C2 at a concrete tree: three one-byte leaves at height 2,
proof for index 1. -/
theorem round_trip_membership_witness :
    toyLeaves.length ≤ 2 ^ toyParams.height ∧ 1 < toyLeaves.length ∧
      ∃ (t : MerkleTree Nat) (proof : MerklePath Nat),
        MerkleTree.new toyParams toyLeaves = .ok t ∧
        t.generate_proof 1 (toyLeaves.getD 1 []) = .ok proof ∧
        proof.verify t.root (toyLeaves.getD 1 []) = .ok true :=
  ⟨by decide, by decide, round_trip_membership toyParams toyLeaves 1 (by decide) (by decide)⟩

/-- C5: for every structurally well-formed proof, calling `verify` with a root
different from the recomputed candidate root returns the ordinary boolean
result `false` — not an error. -/
theorem verify_mismatch_returns_false [DecidableEq α] (path : MerklePath α)
    (root : α) (leaf : List Nat)
    (hlen : path.siblings.length = path.params.height)
    (hne : root ≠ foldPath path.params (path.params.hashLeaf leaf) path.siblings path.index) :
    path.verify root leaf = .ok false := by
  simp only [MerklePath.verify]
  rw [if_neg (by simp [hlen])]
  simp only [Except.ok.injEq, decide_eq_false_iff_not]
  exact fun h => hne h.symm

/-- Witness for C5: the toy proof for index 1 checked against the corrupted
root 0 (the true candidate is 757). -/
theorem verify_mismatch_returns_false_witness :
    ([22, 902] : List Nat).length = toyParams.height ∧
      (0 : Nat) ≠ foldPath toyParams (toyParams.hashLeaf [1]) [22, 902] 1 ∧
      (⟨toyParams, [22, 902], 1⟩ : MerklePath Nat).verify 0 [1] = .ok false :=
  ⟨by decide, by decide,
    verify_mismatch_returns_false ⟨toyParams, [22, 902], 1⟩ 0 [1] (by decide) (by decide)⟩

/-- C6: a `check_membership` call with a well-formed path never returns an
error, whatever root value was allocated; a wrong root is observable only
later, because the accumulated constraint system fails its satisfiability
check. -/
theorem gadget_call_never_errors [DecidableEq α] (p : MerkleParameters α)
    (cs : ConstraintSystem α) (rootVar : α) (leaf : List Nat) (path : MerklePath α)
    (hlen : path.siblings.length = p.height) :
    ∃ cs', check_membership p cs rootVar leaf path = .ok cs' ∧
      (rootVar ≠ foldPath p (p.hashLeaf leaf) path.siblings path.index →
        cs'.is_satisfied = false) := by
  obtain ⟨cs', h1, h2⟩ := check_membership_ok p cs rootVar leaf path hlen
  refine ⟨cs', h1, fun hbad => ?_⟩
  rcases Bool.eq_false_or_eq_true cs'.is_satisfied with h | h
  · rw [h2] at h
    exact absurd h.2.symm hbad
  · exact h

/-- Witness for C6: the toy proof with the wrong root 0 — the gadget call
still succeeds and the system is unsatisfiable. -/
theorem gadget_call_never_errors_witness :
    ([22, 902] : List Nat).length = toyParams.height ∧
      ∃ cs', check_membership toyParams ConstraintSystem.empty 0 [1]
          ⟨toyParams, [22, 902], 1⟩ = .ok cs' ∧
        (0 ≠ foldPath toyParams (toyParams.hashLeaf [1]) [22, 902] 1 →
          cs'.is_satisfied = false) :=
  ⟨by decide, gadget_call_never_errors toyParams ConstraintSystem.empty 0 [1]
    ⟨toyParams, [22, 902], 1⟩ (by decide)⟩

theorem levelFoldGadget_value [DecidableEq α] (p : MerkleParameters α) :
    ∀ (n : Nat) (cs : ConstraintSystem α) (xs : List α),
      (levelFoldGadget p cs xs n).2 = (levelsUp p n xs).headD p.hashEmpty := by
  intro n
  induction n with
  | zero => intro cs xs; rfl
  | succ m ih =>
      intro cs xs
      simp only [levelFoldGadget, levelsUp]
      exact ih _ _

theorem all_pairs_refl [DecidableEq α] (l : List α) :
    (l.map fun h => (h, h)).all (fun c => c.1 == c.2) = true := by
  induction l with
  | nil => rfl
  | cons a t ih => simp [ih]

theorem levelFoldGadget_satisfied [DecidableEq α] (p : MerkleParameters α) :
    ∀ (n : Nat) (cs : ConstraintSystem α) (xs : List α),
      (levelFoldGadget p cs xs n).1.is_satisfied = cs.is_satisfied := by
  intro n
  induction n with
  | zero => intro cs xs; rfl
  | succ m ih =>
      intro cs xs
      simp only [levelFoldGadget]
      rw [ih]
      simp [ConstraintSystem.is_satisfied, List.all_append, all_pairs_refl]

theorem compute_root_value [DecidableEq α] (p : MerkleParameters α)
    (cs : ConstraintSystem α) (mask : List Nat) (leaves : List (List Nat)) :
    (compute_root p cs mask leaves).2 = rawRoot p leaves := by
  simp only [compute_root, rawRoot]
  exact levelFoldGadget_value p p.height _ _

theorem compute_root_satisfied [DecidableEq α] (p : MerkleParameters α)
    (cs : ConstraintSystem α) (mask : List Nat) (leaves : List (List Nat)) :
    (compute_root p cs mask leaves).1.is_satisfied = cs.is_satisfied := by
  simp only [compute_root]
  rw [levelFoldGadget_satisfied]
  simp [ConstraintSystem.is_satisfied, List.all_append, all_pairs_refl]

/-- A successful `new` stores exactly the raw root of its leaves. -/
theorem new_root_eq_rawRoot (p : MerkleParameters α) (leaves : List (List Nat))
    (h : leaves.length ≤ 2 ^ p.height) :
    ∃ t, MerkleTree.new p leaves = .ok t ∧ t.root = rawRoot p leaves := by
  simp only [MerkleTree.new]
  rw [if_neg (by omega)]
  exact ⟨_, rfl, rfl⟩

/-- C3: concrete masked scenario — at height 3 over the four 32-byte test
leaves, with the mask derived by a PRF from a fixed nonce and the bytes of
the true root, the masked-root gadget builds a satisfiable constraint system,
its computed value equals the native masked-root computation (the tree root
the test compares against), and substituting a default root in place of the
true root produces a mismatch. -/
theorem masked_concrete_scenario [DecidableEq α] (p : MerkleParameters α)
    (toBytes : α → List Nat) (prf : List Nat → List Nat → List Nat)
    (nonce : List Nat) (defaultRoot : α) (hh : p.height = 3) :
    ∃ t : MerkleTree α, MerkleTree.new p fourTestLeaves = .ok t ∧
      (compute_root p ConstraintSystem.empty (prf nonce (toBytes t.root))
          fourTestLeaves).1.is_satisfied = true ∧
      (compute_root p ConstraintSystem.empty (prf nonce (toBytes t.root))
          fourTestLeaves).2 = t.root ∧
      (defaultRoot ≠ t.root →
        (defaultRoot == (compute_root p ConstraintSystem.empty
            (prf nonce (toBytes t.root)) fourTestLeaves).2) = false) := by
  have hcap : fourTestLeaves.length ≤ 2 ^ p.height := by
    rw [hh]
    simp [fourTestLeaves]
  obtain ⟨t, ht, hroot⟩ := new_root_eq_rawRoot p fourTestLeaves hcap
  refine ⟨t, ht, ?_, ?_, ?_⟩
  · rw [compute_root_satisfied]
    rfl
  · rw [compute_root_value, hroot]
  · intro hne
    rw [compute_root_value, ← hroot]
    simp only [beq_eq_false_iff_ne, ne_eq]
    exact hne

/-- Witness for C3 at the toy height-3 hash engine with the toy PRF, nonce,
and the default root 0. -/
theorem masked_concrete_scenario_witness :
    toyParams3.height = 3 ∧
      ∃ t : MerkleTree Nat, MerkleTree.new toyParams3 fourTestLeaves = .ok t ∧
        (compute_root toyParams3 ConstraintSystem.empty
            (toyPrf toyNonce (toyToBytes t.root)) fourTestLeaves).1.is_satisfied = true ∧
        (compute_root toyParams3 ConstraintSystem.empty
            (toyPrf toyNonce (toyToBytes t.root)) fourTestLeaves).2 = t.root ∧
        (0 ≠ t.root →
          ((0 : Nat) == (compute_root toyParams3 ConstraintSystem.empty
              (toyPrf toyNonce (toyToBytes t.root)) fourTestLeaves).2) = false) :=
  ⟨rfl, masked_concrete_scenario toyParams3 toyToBytes toyPrf toyNonce 0 rfl⟩

/-- C4 counterexample: at the concrete height-3 instantiation over the four
32-byte test leaves, with the mask derived by the PRF from the nonce and the
true root's bytes, the externally visible masked value EQUALS the raw
(unmasked) tree root of the same leaves — the repository's
good_masked_root_test asserts exactly this equality, refuting the claimed
distinctness. -/
theorem masked_commitment_equals_raw_root_cex :
    (compute_root toyParams3 ConstraintSystem.empty
        (toyPrf toyNonce (toyToBytes (rawRoot toyParams3 fourTestLeaves)))
        fourTestLeaves).2 =
      rawRoot toyParams3 fourTestLeaves := by
  decide

/-- C4 (amended): the externally visible value produced by the masked-root
computation over a leaf set, with mask derived as PRF(nonce, true-root
bytes), equals the raw (unmasked) tree root of the same leaves — the mask
blinds the in-circuit evaluation, not the output value. -/
theorem masked_commitment_value [DecidableEq α] (p : MerkleParameters α)
    (toBytes : α → List Nat) (prf : List Nat → List Nat → List Nat)
    (nonce : List Nat) (leaves : List (List Nat)) (cs : ConstraintSystem α)
    (hadm : leaves.length ≤ 2 ^ p.height) :
    ∃ t, MerkleTree.new p leaves = .ok t ∧
      (compute_root p cs (prf nonce (toBytes t.root)) leaves).2 = t.root := by
  obtain ⟨t, ht, hroot⟩ := new_root_eq_rawRoot p leaves hadm
  exact ⟨t, ht, by rw [compute_root_value, hroot]⟩

/-- Witness for the amended C4 at the toy height-3 instantiation. -/
theorem masked_commitment_value_witness :
    fourTestLeaves.length ≤ 2 ^ toyParams3.height ∧
      ∃ t, MerkleTree.new toyParams3 fourTestLeaves = .ok t ∧
        (compute_root toyParams3 ConstraintSystem.empty
            (toyPrf toyNonce (toyToBytes t.root)) fourTestLeaves).2 = t.root :=
  ⟨by decide, masked_commitment_value toyParams3 toyToBytes toyPrf toyNonce
    fourTestLeaves ConstraintSystem.empty (by decide)⟩

/-- C9: the masked-root gadget places no constraint tying its output to an
externally claimed root — for every mask byte string and admissible leaf set
the constraint system it builds stays satisfiable, and a wrong claimed root
is detected only by the out-of-circuit comparison of the returned variable's
witnessed value with the claim. -/
theorem compute_root_unconstrained [DecidableEq α] (p : MerkleParameters α)
    (cs : ConstraintSystem α) (mask : List Nat) (leaves : List (List Nat))
    (claimed : α) (hsat : cs.is_satisfied = true)
    (hadm : leaves.length ≤ 2 ^ p.height) :
    (compute_root p cs mask leaves).1.is_satisfied = true ∧
      (claimed ≠ (compute_root p cs mask leaves).2 →
        ((claimed == (compute_root p cs mask leaves).2) = false ∧
          (compute_root p cs mask leaves).1.is_satisfied = true)) := by
  have h1 : (compute_root p cs mask leaves).1.is_satisfied = true := by
    rw [compute_root_satisfied]
    exact hsat
  refine ⟨h1, fun hne => ⟨?_, h1⟩⟩
  simp only [beq_eq_false_iff_ne, ne_eq]
  exact hne

/-- Witness for C9 at the toy height-3 instantiation with a wrong claimed
root 0. -/
theorem compute_root_unconstrained_witness :
    (ConstraintSystem.empty : ConstraintSystem Nat).is_satisfied = true ∧
      fourTestLeaves.length ≤ 2 ^ toyParams3.height ∧
      ((compute_root toyParams3 ConstraintSystem.empty [7, 7] fourTestLeaves).1.is_satisfied = true ∧
        ((0 : Nat) ≠ (compute_root toyParams3 ConstraintSystem.empty [7, 7] fourTestLeaves).2 →
          (((0 : Nat) == (compute_root toyParams3 ConstraintSystem.empty [7, 7] fourTestLeaves).2) = false ∧
            (compute_root toyParams3 ConstraintSystem.empty [7, 7] fourTestLeaves).1.is_satisfied = true))) :=
  ⟨rfl, by decide,
    compute_root_unconstrained toyParams3 ConstraintSystem.empty [7, 7] fourTestLeaves 0
      rfl (by decide)⟩

/-- C7: construction error conditions — `new` returns an explicit failure
exactly when the leaf count exceeds `2^H`, and proof generation (run after
construction) returns an explicit failure exactly when construction failed,
the index is out of bounds, or the claimed leaf's hash differs from the
stored leaf hash at that index; in all other cases both succeed. -/
theorem construction_error_conditions [DecidableEq α] (p : MerkleParameters α)
    (leaves : List (List Nat)) (index : Nat) (leaf : List Nat) :
    ((∃ e, MerkleTree.new p leaves = .error e) ↔ leaves.length > 2 ^ p.height) ∧
    ((∃ e, ((MerkleTree.new p leaves).bind fun t => t.generate_proof index leaf) = .error e) ↔
      (leaves.length > 2 ^ p.height ∨ index ≥ leaves.length ∨
        p.hashLeaf leaf ≠ (padLeaves p leaves).getD index p.hashEmpty)) := by
  by_cases hc : leaves.length > 2 ^ p.height
  · constructor
    · simp only [MerkleTree.new]
      rw [if_pos hc]
      exact ⟨fun _ => hc, fun _ => ⟨.invalidLeafCount, rfl⟩⟩
    · simp only [MerkleTree.new]
      rw [if_pos hc]
      exact ⟨fun _ => Or.inl hc, fun _ => ⟨.invalidLeafCount, rfl⟩⟩
  · have hnew : MerkleTree.new p leaves = .ok ⟨p, leaves.length,
        levelsFrom p p.height (padLeaves p leaves),
        (levelsUp p p.height (padLeaves p leaves)).headD p.hashEmpty⟩ := by
      simp only [MerkleTree.new]
      rw [if_neg hc]
    rw [hnew]
    constructor
    · simp [hc]
    · simp only [Except.bind, MerkleTree.generate_proof, levelsFrom_headD]
      by_cases h1 : index ≥ leaves.length
      · rw [if_pos h1]
        simp [hc, h1]
      · rw [if_neg h1]
        by_cases h2 : p.hashLeaf leaf ≠ (padLeaves p leaves).getD index p.hashEmpty
        · rw [if_pos h2]
          simp [hc, h1]
          simpa [List.getD_eq_getElem?_getD] using h2
        · rw [if_neg h2]
          simp [hc, h1]
          simpa [List.getD_eq_getElem?_getD] using not_not.mp h2

/-- C8: parameter setup is reproducible under deterministic randomness — two
`setup` calls with identically seeded deterministic RNGs produce identical
hash parameters, and hence identical trees and identical roots from the same
leaves. -/
theorem setup_reproducible {σ : Type} (step : σ → Nat × σ) (numSamples : Nat)
    (seedFn : Nat → σ) (s1 s2 : Nat) (mk : List Nat → MerkleParameters α)
    (leaves : List (List Nat)) (hseed : s1 = s2) :
    setup step numSamples (seedFn s1) = setup step numSamples (seedFn s2) ∧
      MerkleTree.new (mk (setup step numSamples (seedFn s1))) leaves =
        MerkleTree.new (mk (setup step numSamples (seedFn s2))) leaves ∧
      rawRoot (mk (setup step numSamples (seedFn s1))) leaves =
        rawRoot (mk (setup step numSamples (seedFn s2))) leaves := by
  subst hseed
  exact ⟨rfl, rfl, rfl⟩

/-- Witness for C8 at the toy RNG, seed 42, toy parameter construction. -/
theorem setup_reproducible_witness :
    (42 : Nat) = 42 ∧
      (setup toyStep 5 (toySeed 42) = setup toyStep 5 (toySeed 42) ∧
        MerkleTree.new (mkToyParams (setup toyStep 5 (toySeed 42))) toyLeaves =
          MerkleTree.new (mkToyParams (setup toyStep 5 (toySeed 42))) toyLeaves ∧
        rawRoot (mkToyParams (setup toyStep 5 (toySeed 42))) toyLeaves =
          rawRoot (mkToyParams (setup toyStep 5 (toySeed 42))) toyLeaves) :=
  ⟨rfl, setup_reproducible toyStep 5 toySeed 42 42 mkToyParams toyLeaves rfl⟩

/-- C10: CLI::node_type returns a node type only for network 3 with at most
one role selected — no role gives Client, prover only gives Prover, validator
only gives Validator, beacon only gives Beacon — and every other
configuration (network other than 3, or more than one role set) hits the
wildcard arm, which panics with "Unsupported node configuration" (modelled as
`none`) instead of returning an error result. -/
theorem node_type_characterization (c : CLI) :
    (c.node_type = some NodeType.Client ↔
      (c.network = 3 ∧ c.prover = none ∧ c.validator = none ∧ c.beacon = false)) ∧
    (c.node_type = some NodeType.Prover ↔
      (c.network = 3 ∧ c.prover ≠ none ∧ c.validator = none ∧ c.beacon = false)) ∧
    (c.node_type = some NodeType.Validator ↔
      (c.network = 3 ∧ c.prover = none ∧ c.validator ≠ none ∧ c.beacon = false)) ∧
    (c.node_type = some NodeType.Beacon ↔
      (c.network = 3 ∧ c.prover = none ∧ c.validator = none ∧ c.beacon = true)) ∧
    (c.node_type = none ↔
      (c.network ≠ 3 ∨ (c.prover ≠ none ∧ c.validator ≠ none) ∨
        (c.prover ≠ none ∧ c.beacon = true) ∨ (c.validator ≠ none ∧ c.beacon = true))) := by
  obtain ⟨n, pr, va, be⟩ := c
  rcases pr with _ | a <;> rcases va with _ | b <;> cases be <;>
    rcases n with _ | _ | _ | _ | m <;>
      simp [CLI.node_type] <;> omega

end Spec2Proof
